import Mathlib

/-!
Shallow embedding of the `stash` disk blob cache (package `stash`: `stash.go`,
`file.go`, `deflate.go`).

Modelling conventions:

* Go strings and byte slices are byte sequences; both are modelled as `List Nat`.
* The cache works in a single storage directory and `filepath.Join dir name` is
  injective in `name` for the fixed directory, so an on-disk path is modelled by
  its file-name component and the disk by an association list from path to file
  content.  `os.Remove` succeeds exactly when the path is present; a missing
  path yields a not-found error (Go returns a `*PathError` with `ENOENT`).
* `container/list` plus the map `m` are kept in lock-step by the source
  (`addMeta` and `evictLast` are the only mutators and each updates both), so
  the pair is modelled as a single list of `Meta` records, front = most
  recently used, back = least recently used; the map lookup `c.m[k]` is
  `List.find?` on the key.
* The lz4 codec (`NewDeflateWriter` / `NewDeflateReader`) is an external black
  box; it is modelled as an explicit function parameter `compress` /
  `decompress` on the operations that stream through it.
* `io.Copy(dst, src)` returns the number of bytes drawn from `src`; a
  conforming `Write` (and lz4's) consumes every byte it is handed, so the
  count returned is the length of the *input*, also when `dst` is the deflate
  writer.  `writeFile` below returns exactly that count.
* The `for` loop inside `validate` is given explicit fuel, because nothing in
  the source bounds its iteration count; `none` means the loop is still
  running after `fuel` iterations.
-/

namespace Stash

/-- Byte sequences: Go strings and `[]byte` values. -/
abbrev Bytes := List Nat

/-- The storage directory: association list from file name to file content. -/
abbrev Disk := List (Bytes × Bytes)

/-- Content of the file at `p`, when present (`os.Open` / `os.Stat`). -/
def diskRead (d : Disk) (p : Bytes) : Option Bytes :=
  (d.find? (fun e => e.1 == p)).map (fun e => e.2)

/-- Delete the file at `p` when present. -/
def diskRemove (d : Disk) (p : Bytes) : Disk :=
  d.filter (fun e => !(e.1 == p))

/-- Create or overwrite the file at `p` with content `v` (`os.Create` + write). -/
def diskWrite (d : Disk) (p : Bytes) (v : Bytes) : Disk :=
  (p, v) :: diskRemove d p

/-- Bytes left unescaped by `url.QueryEscape`: alphanumerics and `-._~`. -/
def isUnreserved (b : Nat) : Bool :=
  (65 ≤ b && b ≤ 90) || (97 ≤ b && b ≤ 122) || (48 ≤ b && b ≤ 57) ||
    b == 45 || b == 46 || b == 95 || b == 126

/-- Upper-case hexadecimal digit for a value below 16. -/
def hexUpper (n : Nat) : Nat :=
  if n < 10 then 48 + n else 55 + n

/-- How `url.QueryEscape` renders one byte: unreserved bytes stand for
themselves, a space becomes `+`, every other byte becomes `%XX`. -/
def escapeByte (b : Nat) : Bytes :=
  if isUnreserved b then [b]
  else if b == 32 then [43]
  else [37, hexUpper (b / 16), hexUpper (b % 16)]

/-- The key-to-file-name mapper `escape` = `url.QueryEscape`. -/
def escape (k : Bytes) : Bytes :=
  (k.map escapeByte).flatten

/-- Metadata record for one cached blob (`type Meta struct`). -/
structure Meta where
  key : Bytes
  size : Int
  path : Bytes
deriving DecidableEq

/-- The cache (`type Cache struct`); `list` is the recency ordering, front =
most recently used; the map `m` is implicit (lookup by key in `list`). -/
structure Cache where
  dir : Bytes
  size : Int
  cap : Int
  sizeUsed : Int
  capUsed : Int
  list : List Meta
  useDeflate : Bool
deriving DecidableEq

/-- Cache paired with the storage directory contents. -/
structure St where
  c : Cache
  d : Disk
deriving DecidableEq

/-- Errors surfaced by the package (`ErrNotFound`, `ErrTooLarge`, ... and
`FileError` wrappers around filesystem failures). -/
inductive Err where
  | errNotFound
  | errTooLarge
  | errBadDir
  | errBadSize
  | errBadCap
  | errRemove (path : Bytes)
  | errOpen (path : Bytes)
  | errStat (path : Bytes)
deriving DecidableEq

/-- Equality of `Except` results is decidable componentwise. -/
instance {α β : Type} [DecidableEq α] [DecidableEq β] :
    DecidableEq (Except α β)
  | .ok a, .ok b =>
    if h : a = b then .isTrue (by rw [h])
    else .isFalse (by intro hc; cases hc; exact h rfl)
  | .error a, .error b =>
    if h : a = b then .isTrue (by rw [h])
    else .isFalse (by intro hc; cases hc; exact h rfl)
  | .ok _, .error _ => .isFalse (by intro hc; cases hc)
  | .error _, .ok _ => .isFalse (by intro hc; cases hc)

/-- Map lookup `c.m[k]`: the unique list element carrying key `k`. -/
def mFind (l : List Meta) (k : Bytes) : Option Meta :=
  l.find? (fun m => m.key == k)

/-- Drop trailing path separators (`strings.TrimRight(dir, sep)`). -/
def trimSep (dir : Bytes) : Bytes :=
  (dir.reverse.dropWhile (fun b => b == 47)).reverse

/-- Constructor `New(dir, size, cap, useDeflate)`. -/
def New (dir : Bytes) (size cap : Int) (useDeflate : Bool) : Except Err Cache :=
  if dir == ([] : Bytes) then .error .errBadDir
  else if size ≤ 0 then .error .errBadSize
  else if cap ≤ 0 then .error .errBadCap
  else .ok { dir := trimSep dir, size := size, cap := cap, sizeUsed := 0,
             capUsed := 0, list := [], useDeflate := useDeflate }

/-- The storage write `writeFile(dir, key, r, useDeflate)` from `file.go`:
creates the file at the mapped path, streams the blob through the deflate
writer when enabled, and returns the path together with the count reported by
`io.Copy` — the number of bytes read from the input. -/
def writeFile (compress : Bytes → Bytes) (key v : Bytes) (useDeflate : Bool)
    (d : Disk) : Bytes × Int × Disk :=
  let path := key
  let stored := if useDeflate then compress v else v
  (path, (v.length : Int), diskWrite d path stored)

/-- Eviction step `evictLast`: remove the back (least recently used) element.
The file removal is attempted first; only on its success are the counters,
map and list updated.  An empty ordering is a no-op success. -/
def evictLast (s : St) : Option Err × St :=
  match s.c.list.getLast? with
  | some item =>
    if (diskRead s.d item.path).isSome then
      (none,
        ⟨{ s.c with
             sizeUsed := s.c.sizeUsed - item.size
             capUsed := s.c.capUsed - 1
             list := s.c.list.dropLast },
         diskRemove s.d item.path⟩)
    else
      (some (.errRemove item.path), s)
  | none => (none, s)

/-- The eviction loop inside `validate`:
`for n+c.sizeUsed > c.size { if err := c.evictLast(); err != nil { return err } }`,
with explicit fuel; `none` means the loop has not finished within `fuel`
iterations. -/
def evictLoop (n : Int) : Nat → St → Option (Option Err × St)
  | 0, _ => none
  | fuel + 1, s =>
    if n + s.c.sizeUsed > s.c.size then
      match evictLast s with
      | (none, s') => evictLoop n fuel s'
      | (some e, s') => some (some e, s')
    else
      some (none, s)

/-- Capacity check `validate(path, n)` run after the bytes are on disk: reject
(and delete) a blob larger than the byte budget, evict until the byte budget
has room, then evict once more if the entry budget is full. -/
def validate (fuel : Nat) (path : Bytes) (n : Int) (s : St) :
    Option (Option Err × St) :=
  if n > s.c.size then
    some (some .errTooLarge, ⟨s.c, diskRemove s.d path⟩)
  else
    match evictLoop n fuel s with
    | none => none
    | some (some e, s') => some (some e, s')
    | some (none, s') =>
      if s'.c.capUsed + 1 > s'.c.cap then
        match evictLast s' with
        | (none, s'') => some (none, s'')
        | (some e, s'') => some (some e, s'')
      else
        some (none, s')

/-- Index insertion `addMeta(key, path, length)`: the counters grow by the new
entry's full contribution, the previously mapped element (when present) is
unlinked from the ordering, and the new record is pushed to the front. -/
def addMeta (c : Cache) (key path : Bytes) (length : Int) : Cache :=
  let c1 := { c with sizeUsed := c.sizeUsed + length, capUsed := c.capUsed + 1 }
  { c1 with list := ⟨key, length, path⟩ :: c1.list.eraseP (fun m => m.key == key) }

/-- `PutReader` (and `Put`, which wraps the byte slice in a reader): write the
blob through the storage layer, validate, then register the metadata. -/
def putReader (compress : Bytes → Bytes) (fuel : Nat) (key v : Bytes) (s : St) :
    Option (Option Err × St) :=
  match writeFile compress (escape key) v s.c.useDeflate s.d with
  | (path, n, d') =>
    match validate fuel path n ⟨s.c, d'⟩ with
    | none => none
    | some (some e, s') => some (some e, s')
    | some (none, s') => some (none, ⟨addMeta s'.c (escape key) path n, s'.d⟩)

/-- `PutFile`: stat the source, move it into the cache (rename, or re-stream
through the deflate writer and delete the source), validate, register.  In
both branches the byte count handed to `validate` is the source file's
uncompressed length (`filesize`, resp. `io.Copy`). -/
def putFile (compress : Bytes → Bytes) (fuel : Nat) (key srcpath : Bytes)
    (s : St) : Option (Option Err × St) :=
  match diskRead s.d srcpath with
  | none => some (some (.errStat srcpath), s)
  | some src =>
    let path := escape key
    let stored := if s.c.useDeflate then compress src else src
    let n : Int := (src.length : Int)
    let d' := diskRemove (diskWrite s.d path stored) srcpath
    match validate fuel path n ⟨s.c, d'⟩ with
    | none => none
    | some (some e, s') => some (some e, s')
    | some (none, s') => some (none, ⟨addMeta s'.c (escape key) path n, s'.d⟩)

/-- `Get(key)`: look up the escaped key, move the hit to the front, open the
file and wrap it in the deflate reader when enabled.  The recency promotion
happens before the open, so it persists even when the open fails.  The
returned bytes stand for reading the stream to its end. -/
def get (decompress : Bytes → Bytes) (s : St) (key : Bytes) :
    Except Err Bytes × Cache :=
  match mFind s.c.list (escape key) with
  | some item =>
    let moved := { s.c with
      list := item :: s.c.list.eraseP (fun m => m.key == escape key) }
    match diskRead s.d item.path with
    | some content =>
      (.ok (if s.c.useDeflate then decompress content else content), moved)
    | none => (.error (.errOpen item.path), moved)
  | none => (.error .errNotFound, s.c)

/-- `Warmup`: scan the directory listing and register every file, the file
name serving as the already-mapped key and the file size as the entry size;
no capacity check runs. -/
def warmup (s : St) : Cache :=
  s.d.foldl (fun c e => addMeta c e.1 e.1 (e.2.length : Int)) s.c

/-- Run a sequence of `Put` calls, recording each call's outcome and the state
it leaves behind; a call that never returns ends the trace. -/
def runTrace (compress : Bytes → Bytes) (fuel : Nat) :
    List (Bytes × Bytes) → St → List (Option Err × St)
  | [], _ => []
  | (k, v) :: rest, s =>
    match putReader compress fuel k v s with
    | none => []
    | some (e, s') => (e, s') :: runTrace compress fuel rest s'

/-- Run a sequence of `Put` calls that are all expected to succeed, returning
the final state; `none` when one fails or diverges. -/
def putsOk (compress : Bytes → Bytes) (fuel : Nat) :
    List (Bytes × Bytes) → St → Option St
  | [], s => some s
  | (k, v) :: rest, s =>
    match putReader compress fuel k v s with
    | some (none, s') => putsOk compress fuel rest s'
    | _ => none

/-- Total size of the entries currently in the index. -/
def sumSizes (l : List Meta) : Int :=
  (l.map (fun m => m.size)).sum

/-- Every entry of the index records a nonnegative size (true of every entry
the code creates: blob lengths and file sizes are nonnegative). -/
def entriesNonneg (c : Cache) : Prop :=
  ∀ m ∈ c.list, 0 ≤ m.size

/-- The inductive invariant behind the budget bounds: the entry counter never
exceeds the entry budget, and it exceeds the true entry count by at most
`cap - 1` (each phantom increment left behind by a replacement is matched by a
still-resident entry having been consumed). -/
def Inv (c : Cache) : Prop :=
  c.capUsed ≤ c.cap ∧ c.capUsed ≤ c.cap - 1 + (c.list.length : Int) ∧
    entriesNonneg c

/-- The directory name used by the concrete scenarios. -/
def dirD : Bytes := [100]

/-- Cache with given counters, index and configuration over directory `dirD`. -/
def mkCache (su cu : Int) (l : List Meta) (size cap : Int) (b : Bool) : Cache :=
  { dir := dirD, size := size, cap := cap, sizeUsed := su, capUsed := cu,
    list := l, useDeflate := b }

/-- A freshly constructed cache (what `New dirD size cap b` returns). -/
def initCache (size cap : Int) (b : Bool) : Cache :=
  mkCache 0 0 [] size cap b

/-- Key a. -/
def ka : Bytes := [97]

/-- Key b. -/
def kb : Bytes := [98]

/-- A 1-byte blob. -/
def v1 : Bytes := [0]

/-- A 2-byte blob. -/
def v2 : Bytes := [0, 1]

/-- A 4-byte blob. -/
def v4 : Bytes := [0, 1, 2, 3]

/-- A 7-byte blob. -/
def v7 : Bytes := [0, 1, 2, 3, 4, 5, 6]

/-- An 8-byte blob. -/
def v8 : Bytes := [0, 1, 2, 3, 4, 5, 6, 7]

/-- State after `Put a (1 byte)` twice on a 100-byte, 40-entry cache. -/
def stRep1 : St := ⟨mkCache 2 2 [⟨[97], 1, [97]⟩] 100 40 false, [([97], [0])]⟩

/-- State after `Put a (1 byte)` then `Put a (2 bytes)` on the same cache. -/
def stRep2 : St := ⟨mkCache 3 2 [⟨[97], 2, [97]⟩] 100 40 false, [([97], [0, 1])]⟩

/-- State after `Put a (8 bytes)` twice on a 10-byte cache: the second put's
eviction pass deleted the file it had just written, yet both puts succeeded. -/
def stLost : St := ⟨mkCache 8 1 [⟨[97], 8, [97]⟩] 10 40 false, []⟩

/-- State after `Put a (4 bytes)` twice on a 10-byte cache: one 4-byte entry,
but `sizeUsed = 8` because the replacement never reversed the old entry. -/
def stSpin : St := ⟨mkCache 8 2 [⟨[97], 4, [97]⟩] 10 40 false, [([97], v4)]⟩

/-- `stSpin` right after `writeFile` has stored key b's 7-byte blob. -/
def stSpinW : St := ⟨stSpin.c, [([98], v7), ([97], v4)]⟩

/-- `stSpinW` after the eviction loop's first iteration: the ordering is empty
while `sizeUsed = 4`, and `7 + 4 > 10` still holds, so the loop never exits. -/
def stSpinE : St := ⟨mkCache 4 1 [] 10 40 false, [([98], v7)]⟩

/-- State after one successful `Put a (1 byte)` on a 10-byte, 3-entry cache. -/
def stWitness : St := ⟨mkCache 1 1 [⟨[97], 1, [97]⟩] 10 3 false, [([97], [0])]⟩

/-- A state whose only (and hence least recently used) entry points at a path
that is absent from the disk. -/
def stAbsent : St := ⟨mkCache 4 1 [⟨[97], 4, [97]⟩] 10 40 false, []⟩

/-- A state with one entry whose file is present, for the eviction contract. -/
def stEvOk : St := ⟨mkCache 4 1 [⟨[97], 4, [97]⟩] 10 40 false, [([97], v4)]⟩

/-- Final state of a successful deflate-mode put of a 4-byte blob through a
codec that compresses everything to the single byte 0. -/
def stDeflW : St := ⟨mkCache 4 1 [⟨[97], 4, [97]⟩] 100 40 true, [([97], [0])]⟩

/-- The bytes of the test key "io/ioutil". -/
def ioName : Bytes := [105, 111, 47, 105, 111, 117, 116, 105, 108]

/-- A storage directory holding one file whose name is the mapped form of
"io/ioutil" (exactly what a prior `Put "io/ioutil"` leaves on disk). -/
def dWarm : Disk := [(escape ioName, [1])]

/-- Claim C1: the counters are claimed to stay consistent with the index
under every operation, a replacing insert reversing the replaced entry's
contribution.  The code refutes this: on a fresh 100-byte, 40-entry cache,
putting key a (1 byte) twice leaves one entry of total size 1 in the index,
yet `capUsed = 2` and `sizeUsed = 2`, because `addMeta` adds the new entry's
full contribution without subtracting the replaced one's. -/
theorem C1_replace_breaks_counter_sync :
    New dirD 100 40 false = .ok (initCache 100 40 false) ∧
    putsOk id 100 [(ka, v1), (ka, v1)] ⟨initCache 100 40 false, []⟩
      = some stRep1 ∧
    stRep1.c.list.length = 1 ∧ sumSizes stRep1.c.list = 1 ∧
    stRep1.c.capUsed = 2 ∧ stRep1.c.sizeUsed = 2 := by
  decide

/-- Claim C2: re-putting an existing key is claimed to leave `countUsed`
unchanged and to change `bytesUsed` by the size delta.  The code refutes
this: putting key a with 1 byte and then with 2 bytes leaves the single entry
for a at the front, but `capUsed = 2` (claim: 1) and `sizeUsed = 3`
(claim: old 1 plus delta 1 = 2). -/
theorem C2_replace_inflates_counters :
    New dirD 100 40 false = .ok (initCache 100 40 false) ∧
    putsOk id 100 [(ka, v1), (ka, v2)] ⟨initCache 100 40 false, []⟩
      = some stRep2 ∧
    stRep2.c.list.map (fun m => m.key) = [escape ka] ∧
    stRep2.c.capUsed = 2 ∧ stRep2.c.sizeUsed = 3 := by
  decide

/-- Claim C4, counterexample: with compression enabled, the count returned by
the storage write is claimed to be the compressed on-disk size.  With a codec
that compresses the 4-byte blob to the single byte 0, `writeFile` stores 1
byte on disk yet returns 4, and a 3-byte cache rejects the put as too large
even though its on-disk size (1 byte) fits: the uncompressed count is what is
returned and accounted. -/
theorem C4_count_is_uncompressed_counterexample :
    writeFile (fun _ => [0]) [97] v4 true [] = ([97], 4, [([97], [0])]) ∧
    ([([97], [0])] : Disk).map (fun e => (e.2.length : Int)) = [1] ∧
    putReader (fun _ => [0]) 100 ka v4 ⟨initCache 3 40 true, []⟩
      = some (some .errTooLarge, ⟨initCache 3 40 true, []⟩) := by
  decide

/-- Claim C5: `Put(k, v)` success is claimed to guarantee that an immediate
`Get(k)` succeeds with `v`.  The code refutes this: on a 10-byte cache,
`Put a (8 bytes)` twice returns success both times (the second put's eviction
pass deletes the freshly overwritten file to make room, then re-registers the
entry), after which `Get a` fails opening the deleted file. -/
theorem C5_round_trip_fails_after_replace_eviction :
    New dirD 10 40 false = .ok (initCache 10 40 false) ∧
    putsOk id 100 [(ka, v8), (ka, v8)] ⟨initCache 10 40 false, []⟩
      = some stLost ∧
    (get id stLost ka).1 = .error (.errOpen [97]) := by
  decide

/-- Claim C8, counterexample: eviction is claimed to treat an already-absent
victim file as success-equivalent, still unlinking the entry and decrementing
the counters.  The code refutes this: evicting from a state whose only
entry's file is absent returns the removal error and leaves the entry and
both counters untouched (`os.Remove` reports `ENOENT` and `evictLast` only
updates state when the removal returned nil). -/
theorem C8_absent_file_counterexample :
    evictLast stAbsent = (some (.errRemove [97]), stAbsent) ∧
    stAbsent.c.list.length = 1 ∧ stAbsent.c.capUsed = 1 := by
  decide

/-- Claim C9: after `Warmup` of a directory holding valid blob files, `Get`
on each file's key is claimed to succeed with the file's content.  The code
refutes this: for the file named `io%2Fioutil` (what `Put "io/ioutil"`
creates), `Warmup` indexes it under exactly that name, but `Get` escapes its
argument again and looks up `io%252Fioutil`, returning not-found — the repo's
own warm-up test expects this `Get` to succeed. -/
theorem C9_get_after_warmup_double_escapes :
    New dirD 100 40 false = .ok (initCache 100 40 false) ∧
    (warmup ⟨initCache 100 40 false, dWarm⟩).list.map (fun m => m.key)
      = [escape ioName] ∧
    diskRead dWarm (escape ioName) = some [1] ∧
    (get id ⟨warmup ⟨initCache 100 40 false, dWarm⟩, dWarm⟩ (escape ioName)).1
      = .error .errNotFound := by
  decide

/-- Once the recency ordering is empty while the incoming size still exceeds
the remaining budget, every iteration of the eviction loop is a no-op and the
loop never exits, whatever the fuel. -/
theorem evictLoop_stuck {n : Int} {s : St} (hL : s.c.list = [])
    (hgt : n + s.c.sizeUsed > s.c.size) :
    ∀ fuel, evictLoop n fuel s = none := by
  intro fuel
  induction fuel with
  | zero => rfl
  | succ f ih =>
    have hE : evictLast s = (none, s) := by
      unfold evictLast
      rw [hL]
      rfl
    show (if n + s.c.sizeUsed > s.c.size then
        match evictLast s with
        | (none, s') => evictLoop n f s'
        | (some e, s') => some (some e, s') else some (none, s)) = none
    rw [if_pos hgt, hE]
    exact ih

/-- Claim C10: every `Put` is claimed to terminate.  The code refutes this:
the state `stSpin` is reached from a fresh 10-byte cache by two successful
puts of key a (4 bytes each; the replacement leaves `sizeUsed = 8` with only
4 real bytes), and then `Put b (7 bytes)` runs the eviction loop forever —
after evicting the single entry the ordering is empty with `sizeUsed = 4`,
and `7 + 4 > 10` keeps the loop spinning, `evictLast` succeeding as a no-op
each time. -/
theorem C10_eviction_loop_diverges :
    New dirD 10 40 false = .ok (initCache 10 40 false) ∧
    putsOk id 100 [(ka, v4), (ka, v4)] ⟨initCache 10 40 false, []⟩
      = some stSpin ∧
    ∀ fuel, putReader id fuel kb v7 stSpin = none := by
  refine ⟨by decide, by decide, ?_⟩
  intro fuel
  have hloop : ∀ f, evictLoop 7 f stSpinW = none := by
    intro f
    cases f with
    | zero => rfl
    | succ g =>
      have hstep : evictLoop 7 (g + 1) stSpinW = evictLoop 7 g stSpinE := rfl
      rw [hstep]
      exact evictLoop_stuck rfl (by decide) g
  have hval : validate fuel [98] 7 stSpinW = none := by
    unfold validate
    rw [if_neg (by decide), hloop fuel]
  show (match validate fuel [98] 7 stSpinW with
    | none => none
    | some (some e, s') => some (some e, s')
    | some (none, s') =>
        some (none, ⟨addMeta s'.c (escape kb) [98] 7, s'.d⟩)) = none
  rw [hval]

/-- Claim C6: a put whose written size exceeds `maxBytes` removes the
just-written file, fails with the too-large error, and leaves the index, the
recency ordering and both counters exactly as they were.  This holds for
`Put`/`PutReader` and for `PutFile`: the cache component of the result state
is the original one, and the result disk is the pre-call disk with the blob
written and then removed again (for `PutFile`, with the source also
consumed). -/
theorem C6_too_large_is_rejected_cleanly
    (compress : Bytes → Bytes) (fuel : Nat) (k v srcpath src : Bytes) (s : St)
    (hv : (v.length : Int) > s.c.size)
    (hsrc : diskRead s.d srcpath = some src)
    (hs : (src.length : Int) > s.c.size) :
    putReader compress fuel k v s =
      some (some .errTooLarge,
        ⟨s.c, diskRemove (diskWrite s.d (escape k)
          (if s.c.useDeflate then compress v else v)) (escape k)⟩) ∧
    putFile compress fuel k srcpath s =
      some (some .errTooLarge,
        ⟨s.c, diskRemove (diskRemove (diskWrite s.d (escape k)
          (if s.c.useDeflate then compress src else src)) srcpath)
          (escape k)⟩) := by
  constructor
  · have hval : validate fuel (escape k) ((v.length : Nat) : Int)
        ⟨s.c, diskWrite s.d (escape k)
          (if s.c.useDeflate then compress v else v)⟩ =
        some (some .errTooLarge,
          ⟨s.c, diskRemove (diskWrite s.d (escape k)
            (if s.c.useDeflate then compress v else v)) (escape k)⟩) := by
      unfold validate
      rw [if_pos hv]
    show (match validate fuel (escape k) ((v.length : Nat) : Int)
        ⟨s.c, diskWrite s.d (escape k)
          (if s.c.useDeflate then compress v else v)⟩ with
      | none => none
      | some (some e, s') => some (some e, s')
      | some (none, s') =>
          some (none, ⟨addMeta s'.c (escape k) (escape k)
            ((v.length : Nat) : Int), s'.d⟩)) = _
    rw [hval]
  · have hval : validate fuel (escape k) ((src.length : Nat) : Int)
        ⟨s.c, diskRemove (diskWrite s.d (escape k)
          (if s.c.useDeflate then compress src else src)) srcpath⟩ =
        some (some .errTooLarge,
          ⟨s.c, diskRemove (diskRemove (diskWrite s.d (escape k)
            (if s.c.useDeflate then compress src else src)) srcpath)
            (escape k)⟩) := by
      unfold validate
      rw [if_pos hs]
    unfold putFile
    rw [hsrc]
    show (match validate fuel (escape k) ((src.length : Nat) : Int)
        ⟨s.c, diskRemove (diskWrite s.d (escape k)
          (if s.c.useDeflate then compress src else src)) srcpath⟩ with
      | none => none
      | some (some e, s') => some (some e, s')
      | some (none, s') =>
          some (none, ⟨addMeta s'.c (escape k) (escape k)
            ((src.length : Nat) : Int), s'.d⟩)) = _
    rw [hval]

/-- Claim C6 witness: an 8-byte blob against a 5-byte cache is rejected with
the too-large error and no index change, both through `PutReader` and through
`PutFile` of a source file holding the same bytes. -/
theorem C6_witness :
    putReader id 1 ka v8 ⟨initCache 5 40 false, [([115], v8)]⟩ =
      some (some .errTooLarge,
        ⟨(⟨initCache 5 40 false, [([115], v8)]⟩ : St).c,
          diskRemove (diskWrite [([115], v8)] (escape ka)
            (if (initCache 5 40 false).useDeflate then id v8 else v8))
            (escape ka)⟩) ∧
    putFile id 1 ka [115] ⟨initCache 5 40 false, [([115], v8)]⟩ =
      some (some .errTooLarge,
        ⟨(⟨initCache 5 40 false, [([115], v8)]⟩ : St).c,
          diskRemove (diskRemove (diskWrite [([115], v8)] (escape ka)
            (if (initCache 5 40 false).useDeflate then id v8 else v8)) [115])
            (escape ka)⟩) :=
  C6_too_large_is_rejected_cleanly id 1 ka v8 [115] v8
    ⟨initCache 5 40 false, [([115], v8)]⟩ (by decide) (by decide) (by decide)

/-- Claim C7: `evictLast` removes exactly the oldest-ordered entry and its
file, decrementing both counters, only when the file deletion succeeds; when
deletion fails the error propagates with the index, ordering and counters
unchanged; when the ordering is empty the call is a no-op success. -/
theorem C7_evictLast_contract (s : St) (item : Meta) :
    (s.c.list.getLast? = none → evictLast s = (none, s)) ∧
    (s.c.list.getLast? = some item → (diskRead s.d item.path).isSome = true →
      evictLast s = (none,
        ⟨{ s.c with
             sizeUsed := s.c.sizeUsed - item.size
             capUsed := s.c.capUsed - 1
             list := s.c.list.dropLast },
         diskRemove s.d item.path⟩)) ∧
    (s.c.list.getLast? = some item → diskRead s.d item.path = none →
      evictLast s = (some (.errRemove item.path), s)) := by
  refine ⟨?_, ?_, ?_⟩
  · intro hL
    unfold evictLast
    rw [hL]
  · intro hL hd
    unfold evictLast
    rw [hL]
    show (if (diskRead s.d item.path).isSome = true then _ else _) = _
    rw [if_pos hd]
  · intro hL hd
    unfold evictLast
    rw [hL]
    show (if (diskRead s.d item.path).isSome = true then _ else _) = _
    rw [if_neg (by rw [hd]; simp)]

/-- Claim C7 witness: the three branches at concrete states — empty ordering,
a present victim file, and an absent victim file. -/
theorem C7_witness :
    evictLast ⟨initCache 10 40 false, []⟩ = (none, ⟨initCache 10 40 false, []⟩) ∧
    evictLast stEvOk = (none, ⟨mkCache 0 0 [] 10 40 false, []⟩) ∧
    evictLast stAbsent = (some (.errRemove [97]), stAbsent) := by
  refine ⟨(C7_evictLast_contract ⟨initCache 10 40 false, []⟩ ⟨[], 0, []⟩).1 rfl,
    ?_, (C7_evictLast_contract stAbsent ⟨[97], 4, [97]⟩).2.2 rfl rfl⟩
  exact (C7_evictLast_contract stEvOk ⟨[97], 4, [97]⟩).2.1 rfl rfl

/-- Claim C8, amended: during eviction a victim file that is already absent
from disk is treated like any other deletion failure, not as
success-equivalent — `evictLast` returns the removal error and leaves the
entry, the ordering and both counters unchanged. -/
theorem C8_amended_absent_is_failure (s : St) (item : Meta)
    (hL : s.c.list.getLast? = some item)
    (habs : diskRead s.d item.path = none) :
    evictLast s = (some (.errRemove item.path), s) := by
  unfold evictLast
  rw [hL]
  show (if (diskRead s.d item.path).isSome = true then _ else _) = _
  rw [if_neg (by rw [habs]; simp)]

/-- Claim C8 amended witness: the concrete absent-file state. -/
theorem C8_amended_witness :
    evictLast stAbsent = (some (.errRemove [97]), stAbsent) :=
  C8_amended_absent_is_failure stAbsent ⟨[97], 4, [97]⟩ rfl rfl

/-- Claim C4, amended: the byte count returned by the storage write is the
number of uncompressed input bytes drawn from the source (what `io.Copy`
reports), also when compression is enabled, and on a successful put exactly
this count is recorded as the new front entry's size. -/
theorem C4_amended_count_is_input_length
    (compress : Bytes → Bytes) (fuel : Nat) (k v : Bytes) (s s' : St)
    (h : putReader compress fuel k v s = some (none, s')) :
    (writeFile compress (escape k) v s.c.useDeflate s.d).2.1
      = ((v.length : Nat) : Int) ∧
    s'.c.list.head? = some ⟨escape k, ((v.length : Nat) : Int), escape k⟩ := by
  refine ⟨rfl, ?_⟩
  have h' : (match validate fuel (escape k) ((v.length : Nat) : Int)
      ⟨s.c, diskWrite s.d (escape k)
        (if s.c.useDeflate then compress v else v)⟩ with
    | none => none
    | some (some e, s1) => some (some e, s1)
    | some (none, s1) =>
        some (none, ⟨addMeta s1.c (escape k) (escape k)
          ((v.length : Nat) : Int), s1.d⟩)) = some (none, s') := h
  rcases hval : validate fuel (escape k) ((v.length : Nat) : Int)
      ⟨s.c, diskWrite s.d (escape k)
        (if s.c.useDeflate then compress v else v)⟩ with - | ⟨eo, s1⟩
  · rw [hval] at h'
    cases h'
  · rw [hval] at h'
    cases eo with
    | some e => simp at h'
    | none =>
      simp only [Option.some.injEq, Prod.mk.injEq] at h'
      rw [← h'.2]
      rfl

/-- Claim C4 amended witness: a successful deflate-mode put of a 4-byte blob
through a codec that stores a single byte records size 4, not 1. -/
theorem C4_amended_witness :
    (writeFile (fun _ => [0]) (escape ka) v4
        (⟨initCache 100 40 true, []⟩ : St).c.useDeflate
        (⟨initCache 100 40 true, []⟩ : St).d).2.1 = ((v4.length : Nat) : Int) ∧
    stDeflW.c.list.head? = some ⟨escape ka, ((v4.length : Nat) : Int), escape ka⟩ :=
  C4_amended_count_is_input_length (fun _ => [0]) 100 ka v4
    ⟨initCache 100 40 true, []⟩ stDeflW (by decide)

/-- One eviction step preserves the invariant, never changes the budgets,
lowers `sizeUsed` on success, frees a counter slot when the entry budget was
full, and leaves the state untouched on failure. -/
theorem evictLast_spec {s : St} {e : Option Err} {s' : St}
    (hInv : Inv s.c) (h : evictLast s = (e, s')) :
    Inv s'.c ∧ s'.c.size = s.c.size ∧ s'.c.cap = s.c.cap ∧
    (e = none → s'.c.sizeUsed ≤ s.c.sizeUsed ∧
      (s.c.cap ≤ s.c.capUsed → s'.c.capUsed + 1 ≤ s.c.cap)) ∧
    (∀ e0, e = some e0 → s' = s) := by
  rcases hInv with ⟨h1, h2, h3⟩
  rcases hL : s.c.list.getLast? with - | item
  · unfold evictLast at h
    rw [hL] at h
    injection h with he hs
    subst he
    subst hs
    have hnil : s.c.list = [] := List.getLast?_eq_none_iff.mp hL
    refine ⟨⟨h1, h2, h3⟩, rfl, rfl, ?_, ?_⟩
    · intro _
      refine ⟨le_refl _, ?_⟩
      intro hfull
      rw [hnil] at h2
      simp at h2
      omega
    · intro e0 he0
      cases he0
  · obtain ⟨ys, hys⟩ := List.getLast?_eq_some_iff.mp hL
    have hmem : item ∈ s.c.list := by
      rw [hys]
      simp
    have hlen : s.c.list.length = ys.length + 1 := by
      rw [hys]
      simp
    have hdrop : s.c.list.dropLast = ys := by
      rw [hys]
      exact List.dropLast_concat
    unfold evictLast at h
    rw [hL] at h
    replace h : (if (diskRead s.d item.path).isSome = true then
        ((none : Option Err),
          (⟨{ s.c with
               sizeUsed := s.c.sizeUsed - item.size
               capUsed := s.c.capUsed - 1
               list := s.c.list.dropLast },
           diskRemove s.d item.path⟩ : St))
      else (some (.errRemove item.path), s)) = (e, s') := h
    by_cases hd : (diskRead s.d item.path).isSome = true
    · rw [if_pos hd] at h
      injection h with he hs
      subst he
      subst hs
      have hsz : 0 ≤ item.size := h3 item hmem
      refine ⟨⟨?_, ?_, ?_⟩, rfl, rfl, ?_, ?_⟩
      · show s.c.capUsed - 1 ≤ s.c.cap
        omega
      · show s.c.capUsed - 1 ≤ s.c.cap - 1 + (s.c.list.dropLast.length : Int)
        rw [hdrop]
        rw [hlen] at h2
        push_cast at h2 ⊢
        omega
      · intro m hm
        rw [hdrop] at hm
        refine h3 m ?_
        rw [hys]
        exact List.mem_append_left _ hm
      · intro _
        constructor
        · show s.c.sizeUsed - item.size ≤ s.c.sizeUsed
          omega
        · intro hfull
          show s.c.capUsed - 1 + 1 ≤ s.c.cap
          omega
      · intro e0 he0
        cases he0
    · rw [if_neg hd] at h
      injection h with he hs
      subst he
      subst hs
      refine ⟨⟨h1, h2, h3⟩, rfl, rfl, ?_, ?_⟩
      · intro he
        cases he
      · intro e0 _
        rfl

/-- The eviction loop preserves the invariant and, when it exits normally,
has made room for the incoming `n` bytes. -/
theorem evictLoop_spec {n : Int} {fuel : Nat} :
    ∀ {s : St} {e : Option Err} {s' : St}, Inv s.c →
      evictLoop n fuel s = some (e, s') →
      Inv s'.c ∧ (e = none → n + s'.c.sizeUsed ≤ s'.c.size) := by
  induction fuel with
  | zero =>
    intro s e s' _ h
    cases h
  | succ f ih =>
    intro s e s' hInv h
    simp only [evictLoop] at h
    by_cases hc : n + s.c.sizeUsed > s.c.size
    · rw [if_pos hc] at h
      rcases hE : evictLast s with ⟨e1, s1⟩
      rw [hE] at h
      have hspec := evictLast_spec hInv hE
      cases e1 with
      | none => exact ih hspec.1 h
      | some e1 =>
        injection h with h'
        injection h' with he hs
        subst he
        subst hs
        refine ⟨hspec.1, ?_⟩
        intro he
        cases he
    · rw [if_neg hc] at h
      injection h with h'
      injection h' with he hs
      subst he
      subst hs
      exact ⟨hInv, fun _ => by omega⟩

/-- `validate` preserves the invariant; on success the byte budget has room
for the incoming blob and the entry budget has a free slot. -/
theorem validate_spec {fuel : Nat} {path : Bytes} {n : Int} {s : St}
    {e : Option Err} {s' : St} (hInv : Inv s.c)
    (h : validate fuel path n s = some (e, s')) :
    Inv s'.c ∧ (e = none → n + s'.c.sizeUsed ≤ s'.c.size ∧
      s'.c.capUsed + 1 ≤ s'.c.cap) := by
  unfold validate at h
  by_cases hbig : n > s.c.size
  · rw [if_pos hbig] at h
    injection h with h'
    injection h' with he hs
    subst he
    subst hs
    refine ⟨hInv, ?_⟩
    intro he
    cases he
  · rw [if_neg hbig] at h
    rcases hloop : evictLoop n fuel s with - | ⟨e1, s1⟩
    · rw [hloop] at h
      cases h
    · rw [hloop] at h
      have hspec := evictLoop_spec hInv hloop
      cases e1 with
      | some e1 =>
        injection h with h'
        injection h' with he hs
        subst he
        subst hs
        refine ⟨hspec.1, ?_⟩
        intro he
        cases he
      | none =>
        have hroom := hspec.2 rfl
        replace h : (if s1.c.capUsed + 1 > s1.c.cap then
            match evictLast s1 with
            | (none, s2) => some (none, s2)
            | (some e2, s2) => some (some e2, s2)
          else some (none, s1)) = some (e, s') := h
        by_cases hcap : s1.c.capUsed + 1 > s1.c.cap
        · rw [if_pos hcap] at h
          rcases hE : evictLast s1 with ⟨e2, s2⟩
          rw [hE] at h
          have hspec2 := evictLast_spec hspec.1 hE
          cases e2 with
          | some e2 =>
            injection h with h'
            injection h' with he hs
            subst he
            subst hs
            refine ⟨hspec2.1, ?_⟩
            intro he
            cases he
          | none =>
            injection h with h'
            injection h' with he hs
            subst he
            subst hs
            refine ⟨hspec2.1, ?_⟩
            intro _
            have h4 := hspec2.2.2.2.1 rfl
            have hfree := h4.2 (by omega)
            constructor
            · rw [hspec2.2.1]
              exact le_trans (by omega) hroom
            · rw [hspec2.2.2.1]
              exact hfree
        · rw [if_neg hcap] at h
          injection h with h'
          injection h' with he hs
          subst he
          subst hs
          exact ⟨hspec.1, fun _ => ⟨hroom, by omega⟩⟩

/-- Registering an entry of nonnegative size while the entry budget has a
free slot preserves the invariant. -/
theorem addMeta_spec {c : Cache} {key path : Bytes} {n : Int}
    (hInv : Inv c) (hcap : c.capUsed + 1 ≤ c.cap) (hn : 0 ≤ n) :
    Inv (addMeta c key path n) := by
  rcases hInv with ⟨-, -, h3⟩
  refine ⟨hcap, ?_, ?_⟩
  · show c.capUsed + 1 ≤ c.cap - 1 +
      (((c.list.eraseP (fun m => m.key == key)).length + 1 : Nat) : Int)
    have := Int.natCast_nonneg (c.list.eraseP (fun m => m.key == key)).length
    push_cast
    omega
  · intro m hm
    rcases List.mem_cons.mp hm with rfl | hm'
    · exact hn
    · exact h3 m ((List.eraseP_sublist c.list).subset hm')

/-- `PutReader` preserves the invariant, and a successful put leaves both
counters within their budgets. -/
theorem putReader_spec {compress : Bytes → Bytes} {fuel : Nat}
    {k v : Bytes} {s : St} {e : Option Err} {s' : St}
    (hInv : Inv s.c) (h : putReader compress fuel k v s = some (e, s')) :
    Inv s'.c ∧ (e = none →
      s'.c.sizeUsed ≤ s'.c.size ∧ s'.c.capUsed ≤ s'.c.cap) := by
  have h' : (match validate fuel (escape k) ((v.length : Nat) : Int)
      ⟨s.c, diskWrite s.d (escape k)
        (if s.c.useDeflate then compress v else v)⟩ with
    | none => none
    | some (some e0, s1) => some (some e0, s1)
    | some (none, s1) =>
        some (none, ⟨addMeta s1.c (escape k) (escape k)
          ((v.length : Nat) : Int), s1.d⟩)) = some (e, s') := h
  rcases hval : validate fuel (escape k) ((v.length : Nat) : Int)
      ⟨s.c, diskWrite s.d (escape k)
        (if s.c.useDeflate then compress v else v)⟩ with - | ⟨e1, s1⟩
  · rw [hval] at h'
    cases h'
  · rw [hval] at h'
    have hspec := validate_spec
      (show Inv (⟨s.c, diskWrite s.d (escape k)
        (if s.c.useDeflate then compress v else v)⟩ : St).c from hInv) hval
    cases e1 with
    | some e1 =>
      injection h' with h''
      injection h'' with he hs
      subst he
      subst hs
      refine ⟨hspec.1, ?_⟩
      intro he
      cases he
    | none =>
      injection h' with h''
      injection h'' with he hs
      subst he
      subst hs
      have hok := hspec.2 rfl
      refine ⟨addMeta_spec hspec.1 hok.2 (Int.natCast_nonneg _), ?_⟩
      intro _
      constructor
      · show s1.c.sizeUsed + ((v.length : Nat) : Int) ≤ s1.c.size
        have := hok.1
        omega
      · show s1.c.capUsed + 1 ≤ s1.c.cap
        exact hok.2

/-- Along any trace of puts from an invariant-satisfying state, every state
satisfies the invariant and every successful put respects both budgets. -/
theorem runTrace_spec {compress : Bytes → Bytes} {fuel : Nat} :
    ∀ {ops : List (Bytes × Bytes)} {s : St}, Inv s.c →
      ∀ p ∈ runTrace compress fuel ops s,
        Inv p.2.c ∧ (p.1 = none →
          p.2.c.sizeUsed ≤ p.2.c.size ∧ p.2.c.capUsed ≤ p.2.c.cap) := by
  intro ops
  induction ops with
  | nil =>
    intro s _ p hp
    cases hp
  | cons kv rest ih =>
    intro s hInv p hp
    rcases kv with ⟨k, v⟩
    rcases hput : putReader compress fuel k v s with - | ⟨e, s1⟩
    · simp only [runTrace, hput] at hp
      cases hp
    · simp only [runTrace, hput] at hp
      have hps := putReader_spec hInv hput
      rcases List.mem_cons.mp hp with rfl | hp'
      · exact hps
      · exact ih hps.1 p hp'

/-- A successfully constructed cache satisfies the invariant. -/
theorem New_ok_Inv {dir : Bytes} {size cap : Int} {b : Bool} {c0 : Cache}
    (h : New dir size cap b = .ok c0) : Inv c0 := by
  unfold New at h
  split at h
  · cases h
  · split at h
    · cases h
    · split at h
      · cases h
      · injection h with hc
        subst hc
        rename_i hcap
        refine ⟨by simpa using le_of_not_le (by omega), ?_, ?_⟩
        · show (0 : Int) ≤ cap - 1 + ((0 : Nat) : Int)
          omega
        · intro m hm
          cases hm

/-- Claim C3: starting from any validly constructed cache (`maxBytes > 0`,
`maxEntries > 0`, any directory, any codec mode), after every `Put` of a
finite sequence that returns success the cache satisfies
`bytesUsed <= maxBytes` and `countUsed <= maxEntries`; and a single blob
whose stored size exceeds `maxBytes` is rejected outright with the too-large
error and no index change. -/
theorem C3_put_sequences_respect_budgets
    (dir : Bytes) (size cap : Int) (b : Bool) (c0 : Cache)
    (hnew : New dir size cap b = .ok c0) (compress : Bytes → Bytes)
    (fuel : Nat) (ops : List (Bytes × Bytes)) (d0 : Disk) :
    (∀ p ∈ runTrace compress fuel ops ⟨c0, d0⟩, p.1 = none →
      p.2.c.sizeUsed ≤ p.2.c.size ∧ p.2.c.capUsed ≤ p.2.c.cap) ∧
    (∀ (k v : Bytes) (t : St), ((v.length : Nat) : Int) > t.c.size →
      ∃ t', putReader compress fuel k v t = some (some .errTooLarge, t') ∧
        t'.c = t.c) := by
  constructor
  · intro p hp he
    exact (runTrace_spec (New_ok_Inv hnew) p hp).2 he
  · intro k v t hbig
    refine ⟨⟨t.c, diskRemove (diskWrite t.d (escape k)
      (if t.c.useDeflate then compress v else v)) (escape k)⟩, ?_, rfl⟩
    have hval : validate fuel (escape k) ((v.length : Nat) : Int)
        ⟨t.c, diskWrite t.d (escape k)
          (if t.c.useDeflate then compress v else v)⟩ =
        some (some .errTooLarge,
          ⟨t.c, diskRemove (diskWrite t.d (escape k)
            (if t.c.useDeflate then compress v else v)) (escape k)⟩) := by
      unfold validate
      rw [if_pos hbig]
    show (match validate fuel (escape k) ((v.length : Nat) : Int)
        ⟨t.c, diskWrite t.d (escape k)
          (if t.c.useDeflate then compress v else v)⟩ with
      | none => none
      | some (some e0, s1) => some (some e0, s1)
      | some (none, s1) =>
          some (none, ⟨addMeta s1.c (escape k) (escape k)
            ((v.length : Nat) : Int), s1.d⟩)) = _
    rw [hval]

/-- Claim C3 witness: a concrete one-put trace on a 10-byte, 3-entry cache
lands inside both budgets. -/
theorem C3_witness :
    stWitness.c.sizeUsed ≤ stWitness.c.size ∧
    stWitness.c.capUsed ≤ stWitness.c.cap :=
  (C3_put_sequences_respect_budgets dirD 10 3 false (initCache 10 3 false)
    (by decide) id 100 [(ka, v1)] []).1 (none, stWitness) (by decide) rfl

end Stash
